import Mathlib

/-!
Verification of the Kubera healthcare contract ingestion script
(`database_ingest.py`).

The script loads a two-column key/value CSV into a Python dict, cleans a
handful of fields (date, integer extraction, currency), and inserts the
result into five related tables (payors, providers, documents, contracts,
contract terms) through a small data-access class, committing after each
insert (and once, in batch, for the contract terms).

The embedding below models:
* the pandas CSV load (`load_contract_data`) over an explicit row list,
  with `Cell.na` standing for a missing/empty cell (pandas `NaN`);
* Python dicts as ordered association lists with last-write-wins insert;
* the three field cleaners, character by character, including the
  backtrack-free reading of CPython's `strptime` day/month/year regexes
  and of `float()`'s accepted string grammar;
* the database as an explicit record of table contents plus fresh-id
  counters, with each handler method a pure state transformer;
* the pipeline `process_contract_data` as the exact sequential
  composition found in the source, failures modelled with `Except`
  carrying the store state at the moment of the raise.
-/

namespace KuberaDB

/-- A raw CSV cell as pandas presents it after `read_csv`: either `NaN`
(missing or empty cell) or the cell text. -/
inductive Cell where
  | na : Cell
  | str : String → Cell
  deriving DecidableEq, Repr

/-- `df['Value'].apply(lambda x: None if pd.isna(x) else x)` on one cell:
`NaN` becomes Python `None` (here `Option.none`), anything else is kept. -/
def normalizeCell : Cell → Option String
  | Cell.na => none
  | Cell.str s => some s

/-- A Python dict from string keys to `str | None` values, as an ordered
association list without duplicate keys. -/
abbrev PyDict := List (String × Option String)

/-- Python dict assignment `d[k] = v`: replaces the value in place if the
key exists, otherwise appends the binding at the end. -/
def dictInsert : PyDict → String → Option String → PyDict
  | [], k, v => [(k, v)]
  | kv :: rest, k, v =>
    if kv.1 == k then (k, v) :: rest else kv :: dictInsert rest k v

/-- `dict(zip(keys, values))`: successive insertion of each pair, so a
later occurrence of a key overwrites an earlier one. -/
def buildDict (rows : List (String × Option String)) : PyDict :=
  rows.foldl (fun d kv => dictInsert d kv.1 kv.2) []

/-- Dict membership lookup: `some v` when the key is bound to `v`,
`none` when the key is absent. -/
def lookupDict (d : PyDict) (k : String) : Option (Option String) :=
  (d.find? (fun kv => kv.1 == k)).map Prod.snd

/-- Python `d.get(k)`: the bound value, or `None` when the key is absent
(so an absent key and a `None`-valued key are indistinguishable). -/
def dictGet (d : PyDict) (k : String) : Option String :=
  (lookupDict d k).getD none

/-- `load_contract_data`: `pd.read_csv(csv_path, skiprows=1, header=None,
names=['Key','Value'])` drops the first row of the file; the `Value`
column is normalized cell-wise (`NaN` to `None`); `dict(zip(...))` builds
the mapping. The input models the file rows as (key, value-cell) pairs. -/
def load_contract_data (rows : List (String × Cell)) : PyDict :=
  buildDict ((rows.drop 1).map (fun kv => (kv.1, normalizeCell kv.2)))

/-- The value of the last row carrying key `k`, if any. -/
def lastValue (rows : List (String × Option String)) (k : String) :
    Option (Option String) :=
  ((rows.filter (fun kv => kv.1 == k)).getLast?).map Prod.snd

theorem lookupDict_dictInsert (d : PyDict) (k k2 : String) (v : Option String) :
    lookupDict (dictInsert d k v) k2 =
      if k2 = k then some v else lookupDict d k2 := by
  induction d with
  | nil =>
    by_cases h : k2 = k
    · subst h
      simp [dictInsert, lookupDict]
    · have hb : (k == k2) = false := beq_eq_false_iff_ne.mpr (Ne.symm h)
      simp [dictInsert, lookupDict, List.find?, hb, h]
  | cons kv rest ih =>
    obtain ⟨a, b⟩ := kv
    by_cases hk : a = k
    · subst hk
      by_cases h2 : k2 = a
      · subst h2
        simp [dictInsert, lookupDict]
      · have hb : (a == k2) = false := beq_eq_false_iff_ne.mpr (Ne.symm h2)
        simp [dictInsert, lookupDict, List.find?, hb, h2]
    · have hins : dictInsert ((a, b) :: rest) k v = (a, b) :: dictInsert rest k v := by
        simp [dictInsert, hk]
      by_cases h2 : k2 = a
      · subst h2
        have h3 : ¬ k2 = k := fun he => hk (he ▸ rfl)
        simp [hins, lookupDict, List.find?, h3]
      · have hb : (a == k2) = false := beq_eq_false_iff_ne.mpr (Ne.symm h2)
        rw [hins]
        simp only [lookupDict, List.find?, hb] at ih ⊢
        exact ih

theorem lookupDict_buildDict_aux (rows : List (String × Option String))
    (d : PyDict) (k : String) :
    lookupDict (rows.foldl (fun d kv => dictInsert d kv.1 kv.2) d) k =
      match lastValue rows k with
      | some v => some v
      | none => lookupDict d k := by
  induction rows using List.reverseRecOn generalizing d with
  | nil => simp [lastValue]
  | append_singleton rs kv ih =>
    rw [List.foldl_append]
    simp only [List.foldl_cons, List.foldl_nil]
    rw [lookupDict_dictInsert]
    by_cases h : k = kv.1
    · simp [lastValue, List.filter_append, h]
    · have hb : (kv.1 == k) = false := beq_eq_false_iff_ne.mpr (Ne.symm h)
      have hfilter : List.filter (fun p => p.1 == k) [kv] = [] := by
        simp [List.filter, hb]
      simp only [lastValue, List.filter_append, hfilter, List.append_nil]
      rw [if_neg h]
      exact ih d

theorem lookupDict_buildDict (rows : List (String × Option String)) (k : String) :
    lookupDict (buildDict rows) k = lastValue rows k := by
  rw [buildDict, lookupDict_buildDict_aux]
  cases h : lastValue rows k <;> simp [lookupDict]

theorem mem_of_lookupDict_buildDict (rows : List (String × Option String))
    (k : String) (v : Option String)
    (h : lookupDict (buildDict rows) k = some v) : (k, v) ∈ rows := by
  rw [lookupDict_buildDict] at h
  rcases Option.map_eq_some'.mp h with ⟨kv, hlast, hsnd⟩
  have hmem : kv ∈ List.filter (fun kv => kv.1 == k) rows := by
    rcases List.mem_getLast?_eq_getLast (Option.mem_def.mpr hlast) with ⟨hne, hx⟩
    exact hx ▸ List.getLast_mem hne
  have hp := List.of_mem_filter hmem
  have hm := List.mem_of_mem_filter hmem
  have hk : kv.1 = k := by simpa using hp
  have hkv : kv = (k, v) := by
    obtain ⟨a, b⟩ := kv
    simp only at hk hsnd
    simp [hk, hsnd]
  exact hkv ▸ hm

/-! ### Field cleaners -/

/-- Numeric value of an ASCII digit character. -/
def digitVal (c : Char) : Nat := c.toNat - 48

/-- Python `int` on a (nonempty) string of digits: leading zeros allowed. -/
def digitsToNat (cs : List Char) : Nat :=
  cs.foldl (fun acc c => acc * 10 + digitVal c) 0

/-- A calendar date, the relevant projection of a Python `datetime`. -/
structure PyDate where
  year : Nat
  month : Nat
  day : Nat
  deriving DecidableEq, Repr

/-- The C-locale abbreviated month names `strptime`'s `%b` recognises,
lowercased (the regex is compiled with `IGNORECASE`). -/
def monthAbbrevs : List String :=
  ["jan", "feb", "mar", "apr", "may", "jun",
   "jul", "aug", "sep", "oct", "nov", "dec"]

/-- Gregorian leap-year rule, as `datetime` applies it. -/
def isLeapYear (y : Nat) : Bool :=
  y % 4 == 0 && (y % 100 != 0 || y % 400 == 0)

/-- Number of days of month `m` in year `y` (the bound `datetime`'s
constructor enforces on the day). -/
def daysInMonth (y m : Nat) : Nat :=
  if m = 2 then (if isLeapYear y then 29 else 28)
  else if m = 4 ∨ m = 6 ∨ m = 9 ∨ m = 11 then 30
  else 31

/-- `strptime`'s `%d` regex `3[01]|[12]\d|0[1-9]|[1-9]`: a two-digit day
in 1..31 when possible, else a single nonzero digit.  (When a two-digit
alternative matches but the overall parse later fails, the one-digit
fallback cannot succeed either — the second digit would have to be the
following literal `-` — so committing here loses no behaviour.) -/
def parseDay : List Char → Option (Nat × List Char)
  | c0 :: c1 :: rest =>
    if c0.isDigit && c1.isDigit
        && decide (1 ≤ digitVal c0 * 10 + digitVal c1)
        && decide (digitVal c0 * 10 + digitVal c1 ≤ 31) then
      some (digitVal c0 * 10 + digitVal c1, rest)
    else if c0.isDigit && decide (1 ≤ digitVal c0) then
      some (digitVal c0, c1 :: rest)
    else none
  | [c0] =>
    if c0.isDigit && decide (1 ≤ digitVal c0) then some (digitVal c0, [])
    else none
  | [] => none

/-- `strptime`'s `%b`: three characters that, lowercased, form one of the
twelve month abbreviations; yields the month number 1..12. -/
def parseMonth : List Char → Option (Nat × List Char)
  | c0 :: c1 :: c2 :: rest =>
    match monthAbbrevs.findIdx?
        (fun a => a == String.mk [c0.toLower, c1.toLower, c2.toLower]) with
    | some i => some (i + 1, rest)
    | none => none
  | _ => none

/-- `strptime`'s `%y` regex `\d\d`: exactly two digits. -/
def parseYear2 : List Char → Option (Nat × List Char)
  | c0 :: c1 :: rest =>
    if c0.isDigit && c1.isDigit then
      some (digitVal c0 * 10 + digitVal c1, rest)
    else none
  | _ => none

/-- `_strptime`'s two-digit year pivot: 0..68 maps into 2000..2068,
69..99 into 1969..1999. -/
def pivotYear (yy : Nat) : Nat := if yy ≤ 68 then 2000 + yy else 1900 + yy

/-- `clean_effective_date`: `datetime.strptime(date_str, '%d-%b-%y')`.
The whole string must be consumed (`strptime` rejects unconverted
trailing data) and the day must exist in the parsed month/year
(`datetime`'s constructor validation); `none` models the raised
`ValueError`. -/
def expectDash : List Char → Option (List Char)
  | c :: rest => if c = '-' then some rest else none
  | [] => none

def clean_effective_date (s : String) : Option PyDate :=
  match parseDay s.data with
  | none => none
  | some dr =>
    match expectDash dr.2 with
    | none => none
    | some rest2 =>
      match parseMonth rest2 with
      | none => none
      | some mr =>
        match expectDash mr.2 with
        | none => none
        | some rest4 =>
          match parseYear2 rest4 with
          | none => none
          | some yr =>
            if yr.2 = [] then
              if dr.1 ≤ daysInMonth (pivotYear yr.1) mr.1 then
                some ⟨pivotYear yr.1, mr.1, dr.1⟩
              else none
            else none

/-- `convert_termination_period`: `re.search(r'(\d+)', text)` finds the
first maximal run of digits; `int` of that run, else Python `None`. -/
def convert_termination_period (s : String) : Option Nat :=
  match (s.data.dropWhile (fun c => !c.isDigit)).takeWhile Char.isDigit with
  | [] => none
  | c :: cs => some (digitsToNat (c :: cs))

/-- The value `float(str)` produces: a finite rational (decimal strings
are modelled exactly), a signed infinity, or a NaN. -/
inductive PyFloat where
  | finite : ℚ → PyFloat
  | infty : Bool → PyFloat
  | nan : PyFloat
  deriving DecidableEq, Repr

/-- `money_str.replace('$', '').replace(',', '')`: every dollar sign and
comma is removed, wherever it occurs. -/
def stripMoney (s : String) : String :=
  String.mk (s.data.filter (fun c => !(c == '$') && !(c == ',')))

/-- CPython's underscore rule for numeric literals passed to `float`:
each underscore must be immediately preceded and followed by a digit
(`prev` is the character before the current position). -/
def underscoresOkAux : Char → List Char → Bool
  | _, [] => true
  | prev, c :: rest =>
    if c = '_' then
      (prev.isDigit &&
        (match rest with
         | [] => false
         | next :: _ => next.isDigit)) && underscoresOkAux c rest
    else underscoresOkAux c rest

/-- Underscore check over a whole string (a leading underscore fails). -/
def underscoresOk : List Char → Bool
  | [] => true
  | c :: rest => (c != '_') && underscoresOkAux c rest

/-- Whitespace as `float()` skips it around the number. -/
def isPySpace (c : Char) : Bool := c.isWhitespace

/-- An optional leading sign; `true` means negative. -/
def parseSign (cs : List Char) : Bool × List Char :=
  match cs with
  | [] => (false, [])
  | c :: rest =>
    if c = '-' then (true, rest)
    else if c = '+' then (false, rest)
    else (false, c :: rest)

/-- Case-insensitive match of the lowercase keyword `kw` at the front of
`cs`, returning the remainder on success. -/
def matchKeyword : List Char → List Char → Option (List Char)
  | [], cs => some cs
  | _ :: _, [] => none
  | k :: ks, c :: cs => if c.toLower = k then matchKeyword ks cs else none

/-- Split off the maximal leading run of ASCII digits. -/
def takeDigits (cs : List Char) : List Char × List Char :=
  (cs.takeWhile Char.isDigit, cs.dropWhile Char.isDigit)

/-- Numerator/denominator of `intpart.fracpart` (kept as a Nat pair so
that concrete runs reduce; the rational value is taken at the end with
`mkRat`). -/
def ratOfParts (ip fp : List Char) : Nat × Nat :=
  (digitsToNat ip * 10 ^ fp.length + digitsToNat fp, 10 ^ fp.length)

/-- An optional exponent part `([eE][+-]?digits)` applied to mantissa
`m = m.1 / m.2`; an `e` not followed by digits fails the parse (the
leftover could never be pure whitespace, so this agrees with strtod
stopping early). -/
def parseExponent (m : Nat × Nat) (cs : List Char) :
    Option ((Nat × Nat) × List Char) :=
  match cs with
  | c :: rest =>
    if c = 'e' ∨ c = 'E' then
      let sr := parseSign rest
      let dr := takeDigits sr.2
      if dr.1 = [] then none
      else some ((if sr.1 then (m.1, m.2 * 10 ^ digitsToNat dr.1)
                  else (m.1 * 10 ^ digitsToNat dr.1, m.2)), dr.2)
    else some (m, cs)
  | [] => some (m, [])

/-- The decimal-number part of the `float()` grammar:
`digits [. digits] [exp]` or `. digits [exp]`, at least one mantissa
digit required; yields the value as a numerator/denominator pair. -/
def parseNumber (cs : List Char) : Option ((Nat × Nat) × List Char) :=
  let ir := takeDigits cs
  match ir.2 with
  | '.' :: r2 =>
    let fr := takeDigits r2
    if ir.1 = [] && fr.1 = [] then none
    else parseExponent (ratOfParts ir.1 fr.1) fr.2
  | r1 =>
    if ir.1 = [] then none else parseExponent (ratOfParts ir.1 []) r1

/-- The full string grammar Python's `float()` accepts: optional
whitespace, optional sign, then `inf`/`infinity`/`nan`
(case-insensitive) or a decimal number, then optional whitespace, with
nothing left over; underscores are allowed only between digits and are
removed before parsing. -/
def pyFloatOfString (s : String) : Option PyFloat :=
  if underscoresOk s.data = false then none
  else
    let cs := (s.data.filter (fun c => !(c == '_'))).dropWhile isPySpace
    let sr := parseSign cs
    match matchKeyword ['i', 'n', 'f'] sr.2 with
    | some restInf =>
      let rest2 := (matchKeyword ['i', 'n', 'i', 't', 'y'] restInf).getD restInf
      if rest2.dropWhile isPySpace = [] then some (PyFloat.infty sr.1) else none
    | none =>
      match matchKeyword ['n', 'a', 'n'] sr.2 with
      | some restNan =>
        if restNan.dropWhile isPySpace = [] then some PyFloat.nan else none
      | none =>
        match parseNumber sr.2 with
        | some mr =>
          if mr.2.dropWhile isPySpace = [] then
            some (PyFloat.finite
              (mkRat (if sr.1 then -(mr.1.1 : Int) else (mr.1.1 : Int)) mr.1.2))
          else none
        | none => none

/-- `clean_money_value`: strip `$` and `,`, call `float`; on failure
raise `ValueError(f"Invalid money value: {money_str}")` with the
original text. -/
def clean_money_value (s : String) : Except String PyFloat :=
  match pyFloatOfString (stripMoney s) with
  | some v => Except.ok v
  | none => Except.error ("Invalid money value: " ++ s)

deriving instance DecidableEq for Except

example : clean_effective_date "01-Jan-24" = some ⟨2024, 1, 1⟩ := by decide

example : clean_effective_date "29-Feb-23" = none := by decide

example : clean_effective_date "29-feb-24" = some ⟨2024, 2, 29⟩ := by decide

example : clean_effective_date "1-Jan-24x" = none := by decide

example : convert_termination_period "90 days notice" = some 90 := by decide

example : convert_termination_period "no digits" = none := by decide

example : clean_money_value "$1,250,000.00" =
    Except.ok (PyFloat.finite 1250000) := by decide

example : clean_money_value "abc" = Except.error "Invalid money value: abc" := by
  decide

example : pyFloatOfString "1e3" = some (PyFloat.finite 1000) := by decide

example : pyFloatOfString "1_0.5" = some (PyFloat.finite (mkRat 21 2)) := by
  decide

example : pyFloatOfString "1__0" = none := by decide

example : pyFloatOfString " -inf " = some (PyFloat.infty true) := by decide

/-! ### Store model and persistence gateway (`ContractHandler`) -/

/-- A row of the `payors` table; `payor_id` is the identity the store
assigns at commit. `name` is nullable (`Payor(name=None)` is possible
when the CSV lacks a payor name). -/
structure Payor where
  payor_id : Nat
  name : Option String
  deriving DecidableEq, Repr

/-- A row of the `healthcare_providers` table (never created by this
pipeline, only looked up). -/
structure HealthcareProvider where
  provider_id : Nat
  name : Option String
  deriving DecidableEq, Repr

/-- A row of the `documents` table. -/
structure Document where
  document_id : Nat
  file_path : Option String
  deriving DecidableEq, Repr

/-- A row of the `contracts` table. `created_at` is the value of
`datetime.now()` at insert, modelled by a logical clock. -/
structure Contract where
  contract_id : Nat
  effective_date : PyDate
  payor_id : Nat
  provider_id : Nat
  document_id : Nat
  termination_notice_period : Option Nat
  stop_loss_threshold : PyFloat
  created_at : Nat
  deriving DecidableEq, Repr

/-- A row of the `contract_terms` table (only non-`None` values are ever
inserted, hence `term_value : String`). -/
structure ContractTerm where
  contract_term_id : Nat
  contract_id : Nat
  term_name : String
  term_value : String
  created_at : Nat
  deriving DecidableEq, Repr

/-- The visible state of the external store: committed rows of the five
tables, the fresh identities the store will assign next, and a logical
clock for `datetime.now()`. -/
structure DBState where
  providers : List HealthcareProvider
  payors : List Payor
  documents : List Document
  contracts : List Contract
  contract_terms : List ContractTerm
  nextPayorId : Nat
  nextDocumentId : Nat
  nextContractId : Nat
  nextTermId : Nat
  clock : Nat
  deriving DecidableEq, Repr

/-- SQL equality as the generated `name = :value` comparison behaves:
`NULL` compares unequal to everything, including `NULL`. -/
def sqlEq (a b : Option String) : Bool :=
  match a, b with
  | some x, some y => x == y
  | _, _ => false

/-- `ContractHandler.get_or_create_payor`: `query(...).filter(name ==
payor_name).first()`; on a miss a new payor is added and committed (the
commit assigns `payor_id`), on a hit the first matching row is returned
and nothing is written. -/
def get_or_create_payor (db : DBState) (payor_name : Option String) :
    Payor × DBState :=
  match db.payors.find? (fun p => sqlEq p.name payor_name) with
  | some p => (p, db)
  | none =>
    let p : Payor := ⟨db.nextPayorId, payor_name⟩
    (p, { db with payors := db.payors ++ [p],
                  nextPayorId := db.nextPayorId + 1 })

/-- `ContractHandler.get_healthcare_provider`: pure lookup by name,
`first()` so `none` when absent. -/
def get_healthcare_provider (db : DBState) (provider_name : Option String) :
    Option HealthcareProvider :=
  db.providers.find? (fun p => sqlEq p.name provider_name)

/-- `ContractHandler.add_document`: unconditional insert plus commit. -/
def add_document (db : DBState) (file_path : Option String) :
    Document × DBState :=
  let d : Document := ⟨db.nextDocumentId, file_path⟩
  (d, { db with documents := db.documents ++ [d],
                nextDocumentId := db.nextDocumentId + 1 })

/-- The essential-terms dictionary built at the top of
`process_contract_data` (`effective_date`, `payor_name`,
`termination_period`, `stop_loss_threshold`). -/
structure EssentialTerms where
  effective_date : PyDate
  payor_name : Option String
  termination_period : Option Nat
  stop_loss_threshold : PyFloat
  deriving DecidableEq

/-- `ContractHandler.add_contract`: unconditional insert of one contract
row from the essential terms and the three resolved foreign keys,
followed by a commit. -/
def add_contract (db : DBState) (t : EssentialTerms)
    (payor_id provider_id document_id : Nat) : Contract × DBState :=
  let c : Contract :=
    ⟨db.nextContractId, t.effective_date, payor_id, provider_id,
     document_id, t.termination_period, t.stop_loss_threshold, db.clock⟩
  (c, { db with contracts := db.contracts ++ [c],
                nextContractId := db.nextContractId + 1,
                clock := db.clock + 1 })

/-- The staging loop of `add_contract_terms`: one `session.add` per
non-`None` value (each row takes its own `datetime.now()`), `None`
values skipped entirely; returns the staged rows together with the
advanced id counter and clock. -/
def stageTerms (cid : Nat) : PyDict → Nat → Nat →
    List ContractTerm × Nat × Nat
  | [], nid, clk => ([], nid, clk)
  | (_, none) :: rest, nid, clk => stageTerms cid rest nid clk
  | (k, some v) :: rest, nid, clk =>
    let r := stageTerms cid rest (nid + 1) (clk + 1)
    (⟨nid, cid, k, v, clk⟩ :: r.1, r.2)

/-- `ContractHandler.add_contract_terms`: stage every non-`None` term,
then a single batch commit after the loop. -/
def add_contract_terms (db : DBState) (contract_id : Nat)
    (contract_terms : PyDict) : DBState :=
  let st := stageTerms contract_id contract_terms db.nextTermId db.clock
  { db with contract_terms := db.contract_terms ++ st.1,
            nextTermId := st.2.1,
            clock := st.2.2 }

/-! ### Pipeline orchestrator (`process_contract_data`) -/

/-- The unrecovered exceptions the script can raise mid-run. -/
inductive PipelineError where
  | typeErr : PipelineError
  | dateParseErr : PipelineError
  | moneyErr : String → PipelineError
  | attributeErr : PipelineError
  deriving DecidableEq, Repr

/-- The keys of the `contract_essential_terms` dict — the snake_case
internal names, which is exactly what `key not in
contract_essential_terms` tests against on line 173. -/
def essentialTermKeys : List String :=
  ["effective_date", "payor_name", "termination_period", "stop_loss_threshold"]

/-- `clean_effective_date(contract_info.get('Effective Date'))`: a
missing key hands `None` to `strptime`, a `TypeError`; a bad string is
`strptime`'s `ValueError`. -/
def cleanDateField : Option String → Except PipelineError PyDate
  | none => Except.error PipelineError.typeErr
  | some s =>
    match clean_effective_date s with
    | some d => Except.ok d
    | none => Except.error PipelineError.dateParseErr

/-- `convert_termination_period(...)` on a `.get` result: `re.search`
on `None` is a `TypeError`; a present string never fails. -/
def cleanTermField : Option String → Except PipelineError (Option Nat)
  | none => Except.error PipelineError.typeErr
  | some s => Except.ok (convert_termination_period s)

/-- `clean_money_value(...)` on a `.get` result: `None.replace` is an
`AttributeError`-class failure, modelled as `typeErr`; a bad string is
the raised `ValueError` with its message. -/
def cleanMoneyField : Option String → Except PipelineError PyFloat
  | none => Except.error PipelineError.typeErr
  | some s =>
    match clean_money_value s with
    | Except.ok v => Except.ok v
    | Except.error m => Except.error (PipelineError.moneyErr m)

/-- Line 173: `{key: value for key, value in contract_info.items() if
key not in contract_essential_terms and key != 'PDF_filename'}`. Note
the membership test is against the *internal* keys of
`contract_essential_terms`, not the CSV header names. -/
def contract_terms_of (contract_info : PyDict) : PyDict :=
  contract_info.filter
    (fun kv => !(essentialTermKeys.contains kv.1) && kv.1 != "PDF_filename")

/-- `process_contract_data`: the linear run of the script, in source
order — load, clean (date, then termination period, then stop-loss, in
the dict literal's evaluation order), split, provider lookup,
payor get-or-create, document insert, provider dereference (the
`provider.provider_id` argument of `add_contract`, where a missing
provider finally raises `AttributeError`), contract insert, terms batch
insert. An error carries the committed store state at the moment of the
raise. -/
def process_contract_data (rows : List (String × Cell)) (db0 : DBState) :
    Except (PipelineError × DBState) DBState :=
  let contract_info := load_contract_data rows
  match cleanDateField (dictGet contract_info "Effective Date") with
  | Except.error e => Except.error (e, db0)
  | Except.ok eff =>
    match cleanTermField (dictGet contract_info "Termination Notice Period") with
    | Except.error e => Except.error (e, db0)
    | Except.ok tp =>
      match cleanMoneyField (dictGet contract_info "Stop Loss Threshold") with
      | Except.error e => Except.error (e, db0)
      | Except.ok slt =>
        let essential : EssentialTerms :=
          ⟨eff, dictGet contract_info "Payor Name", tp, slt⟩
        let file_path := dictGet contract_info "PDF_filename"
        let extra := contract_terms_of contract_info
        let provider := get_healthcare_provider db0 (some "ABC Healthcare")
        let pr := get_or_create_payor db0 essential.payor_name
        let dr := add_document pr.2 file_path
        match provider with
        | none => Except.error (PipelineError.attributeErr, dr.2)
        | some prov =>
          let cr := add_contract dr.2 essential pr.1.payor_id
            prov.provider_id dr.1.document_id
          Except.ok (add_contract_terms cr.2 cr.1.contract_id extra)

/-! ### Claim theorems -/

/-- C9: `load_contract_data` skips the first (header) row of the
two-column input and returns a key-to-value mapping in which every
missing/empty cell is normalized to the explicit absent marker (`none`,
never a sentinel string), and performs no coercion beyond that: every
bound value is either the absent marker coming from a `NaN` cell, or
verbatim the text of some data row with that key. -/
theorem load_contract_data_spec (header : String × Cell)
    (rows : List (String × Cell)) :
    load_contract_data (header :: rows) =
      buildDict (rows.map (fun kv => (kv.1, normalizeCell kv.2)))
    ∧ (∀ k c, lookupDict (load_contract_data (header :: rows)) k = some c →
        (c = none ∧ (k, Cell.na) ∈ rows) ∨
        (∃ s, c = some s ∧ (k, Cell.str s) ∈ rows)) := by
  constructor
  · rfl
  · intro k c h
    have h2 : lookupDict
        (buildDict (rows.map (fun kv => (kv.1, normalizeCell kv.2)))) k =
        some c := h
    have hm := mem_of_lookupDict_buildDict _ _ _ h2
    rcases List.mem_map.mp hm with ⟨kv, hkv, heq⟩
    obtain ⟨k0, cell⟩ := kv
    cases cell with
    | na =>
      left
      have hk : k0 = k := congrArg Prod.fst heq
      have hc : c = none := (congrArg Prod.snd heq).symm
      exact ⟨hc, hk ▸ hkv⟩
    | str s =>
      right
      refine ⟨s, (congrArg Prod.snd heq).symm, ?_⟩
      have hk : k0 = k := congrArg Prod.fst heq
      exact hk ▸ hkv

/-- Witness for C9 at a concrete two-row input with one `NaN` cell. -/
theorem load_contract_data_spec_witness :
    load_contract_data [("Key", Cell.str "Value"), ("A", Cell.na)] =
      buildDict [("A", (none : Option String))]
    ∧ (((none : Option String) = none ∧ ("A", Cell.na) ∈ [("A", Cell.na)]) ∨
       (∃ s, (none : Option String) = some s ∧
          ("A", Cell.str s) ∈ [("A", Cell.na)])) :=
  ⟨(load_contract_data_spec ("Key", Cell.str "Value") [("A", Cell.na)]).1,
   (load_contract_data_spec ("Key", Cell.str "Value") [("A", Cell.na)]).2
     "A" none (by decide)⟩

/-- C10 (implicit): when the same key occurs on more than one data row,
the mapping produced by `load_contract_data` binds that key to the value
of its last occurrence — any earlier occurrences (anywhere in `pre`) are
silently discarded. -/
theorem load_contract_data_last_wins (header : String × Cell)
    (pre post : List (String × Cell)) (k : String) (v : Cell)
    (hpost : ∀ kv ∈ post, kv.1 ≠ k) :
    lookupDict (load_contract_data (header :: (pre ++ (k, v) :: post))) k =
      some (normalizeCell v) := by
  have hload : load_contract_data (header :: (pre ++ (k, v) :: post)) =
      buildDict ((pre.map (fun kv => (kv.1, normalizeCell kv.2))) ++
        (k, normalizeCell v) ::
          (post.map (fun kv => (kv.1, normalizeCell kv.2)))) := by
    simp [load_contract_data]
  rw [hload, lookupDict_buildDict]
  have hfpost : List.filter (fun p => p.1 == k)
      (post.map (fun kv => (kv.1, normalizeCell kv.2))) = [] := by
    rw [List.filter_eq_nil_iff]
    intro p hp
    rcases List.mem_map.mp hp with ⟨kv, hkv, heq⟩
    have : p.1 = kv.1 := by rw [← heq]
    rw [this]
    simpa using hpost kv hkv
  have hsplit : List.filter (fun p => p.1 == k)
      ((pre.map (fun kv => (kv.1, normalizeCell kv.2))) ++
        (k, normalizeCell v) ::
          (post.map (fun kv => (kv.1, normalizeCell kv.2)))) =
      List.filter (fun p => p.1 == k)
        (pre.map (fun kv => (kv.1, normalizeCell kv.2))) ++
        [(k, normalizeCell v)] := by
    rw [List.filter_append]
    congr 1
    simp [List.filter, hfpost]
  rw [lastValue, hsplit, List.getLast?_append_of_ne_nil _ (by simp)]
  rfl

/-- Witness for C10: a duplicated `Payor Name` row keeps only the later
value. -/
theorem load_contract_data_last_wins_witness :
    lookupDict
      (load_contract_data
        [("Key", Cell.str "Value"),
         ("Payor Name", Cell.str "First"),
         ("Payor Name", Cell.str "Second"),
         ("Other", Cell.str "x")]) "Payor Name" =
      some (normalizeCell (Cell.str "Second")) :=
  load_contract_data_last_wins ("Key", Cell.str "Value")
    [("Payor Name", Cell.str "First")] [("Other", Cell.str "x")]
    "Payor Name" (Cell.str "Second") (by decide)

theorem dropWhile_append_all {p : Char → Bool} (pre rest : List Char)
    (h : ∀ c ∈ pre, p c = true) :
    List.dropWhile p (pre ++ rest) = List.dropWhile p rest := by
  induction pre with
  | nil => rfl
  | cons c cs ih =>
    simp only [List.cons_append, List.dropWhile_cons]
    rw [if_pos (h c (List.mem_cons_self c cs))]
    exact ih (fun c2 hc => h c2 (List.mem_cons_of_mem _ hc))

theorem takeWhile_append_all (run post : List Char)
    (h1 : ∀ c ∈ run, Char.isDigit c = true)
    (h2 : ∀ c, post.head? = some c → Char.isDigit c = false) :
    List.takeWhile Char.isDigit (run ++ post) = run := by
  induction run with
  | nil =>
    cases post with
    | nil => rfl
    | cons c cs =>
      simp only [List.nil_append, List.takeWhile_cons]
      rw [h2 c rfl]
      simp
  | cons c cs ih =>
    simp only [List.cons_append, List.takeWhile_cons]
    rw [h1 c (List.mem_cons_self c cs)]
    simp only [if_true]
    rw [ih (fun c2 hc => h1 c2 (List.mem_cons_of_mem _ hc))]

/-- C5: for every input string containing at least one digit,
`convert_termination_period` returns the first contiguous (maximal) run
of digits as an integer, regardless of the surrounding text; for every
string containing no digit at all it returns the absent marker `none`
(it does not fail). -/
theorem convert_termination_period_spec :
    (∀ (pre run post : List Char),
      (∀ c ∈ pre, Char.isDigit c = false) →
      run ≠ [] →
      (∀ c ∈ run, Char.isDigit c = true) →
      (∀ c, post.head? = some c → Char.isDigit c = false) →
      convert_termination_period (String.mk (pre ++ run ++ post)) =
        some (digitsToNat run))
    ∧ (∀ s : String, (∀ c ∈ s.data, Char.isDigit c = false) →
        convert_termination_period s = none) := by
  constructor
  · intro pre run post hpre hne hrun hpost
    have hdata : (String.mk (pre ++ run ++ post)).data = pre ++ (run ++ post) := by
      simp
    rw [convert_termination_period, hdata]
    rw [dropWhile_append_all pre (run ++ post)
      (fun c hc => by rw [hpre c hc]; rfl)]
    cases run with
    | nil => exact absurd rfl hne
    | cons r rs =>
      have hr : Char.isDigit r = true := hrun r (List.mem_cons_self r rs)
      have hdw : List.dropWhile (fun c => !c.isDigit) ((r :: rs) ++ post) =
          (r :: rs) ++ post := by
        simp only [List.cons_append, List.dropWhile_cons, hr]
        simp
      rw [hdw, takeWhile_append_all (r :: rs) post hrun hpost]
  · intro s hs
    rw [convert_termination_period]
    have hdw : List.dropWhile (fun c => !c.isDigit) s.data = [] := by
      have h0 := @dropWhile_append_all (fun c => !c.isDigit) s.data []
        (fun c hc => by show (!Char.isDigit c) = true; rw [hs c hc]; rfl)
      simpa using h0
    rw [hdw]
    rfl

/-- Witness for C5: `"90 days notice"` yields 90; an all-text string
yields the absent marker. -/
theorem convert_termination_period_spec_witness :
    convert_termination_period (String.mk
        ([] ++ ['9', '0'] ++ [' ', 'd', 'a', 'y', 's'])) = some 90
    ∧ convert_termination_period "no digits" = none := by
  constructor
  · have h := convert_termination_period_spec.1 [] ['9', '0']
      [' ', 'd', 'a', 'y', 's'] (by decide) (by decide) (by decide) (by decide)
    rw [h]
    decide
  · exact convert_termination_period_spec.2 "no digits" (by decide)

/-- The spec's end-to-end scenario input (section 8), with the header
row the loader skips. -/
def exampleRows : List (String × Cell) :=
  [("Key", Cell.str "Value"),
   ("Effective Date", Cell.str "01-Jan-24"),
   ("Payor Name", Cell.str "Acme Health"),
   ("Termination Notice Period", Cell.str "90 days"),
   ("Stop Loss Threshold", Cell.str "$50,000"),
   ("PDF_filename", Cell.str "doc.pdf"),
   ("Deductible", Cell.str "$500")]

/-- A store holding only the pre-existing provider the script looks up. -/
def exampleDB : DBState :=
  { providers := [⟨1, some "ABC Healthcare"⟩],
    payors := [], documents := [], contracts := [], contract_terms := [],
    nextPayorId := 1, nextDocumentId := 1, nextContractId := 1,
    nextTermId := 1, clock := 0 }

/-- A store with no rows at all (in particular, no provider). -/
def emptyDB : DBState :=
  { providers := [], payors := [], documents := [], contracts := [],
    contract_terms := [],
    nextPayorId := 1, nextDocumentId := 1, nextContractId := 1,
    nextTermId := 1, clock := 0 }

/-- `exampleDB` with one payor already present. -/
def payorPresentDB : DBState :=
  { exampleDB with payors := [⟨7, some "Acme Health"⟩], nextPayorId := 8 }

/-- C2: for a payor name not present in the store,
`get_or_create_payor` creates exactly one new payor row (appended and
committed), returns it with the store-assigned identity, and touches no
other table; for a name already present it creates zero new rows (the
store is returned unchanged) and returns an existing record with that
name. -/
theorem get_or_create_payor_spec (db : DBState) (n : String) :
    ((∀ p ∈ db.payors, p.name ≠ some n) →
      ((get_or_create_payor db (some n)).1.payor_id = db.nextPayorId ∧
       (get_or_create_payor db (some n)).1.name = some n) ∧
      (get_or_create_payor db (some n)).2.payors =
        db.payors ++ [(get_or_create_payor db (some n)).1] ∧
      (get_or_create_payor db (some n)).2.providers = db.providers ∧
      (get_or_create_payor db (some n)).2.documents = db.documents ∧
      (get_or_create_payor db (some n)).2.contracts = db.contracts ∧
      (get_or_create_payor db (some n)).2.contract_terms = db.contract_terms)
    ∧ ((∃ p ∈ db.payors, p.name = some n) →
      (get_or_create_payor db (some n)).2 = db ∧
      (get_or_create_payor db (some n)).1 ∈ db.payors ∧
      (get_or_create_payor db (some n)).1.name = some n) := by
  constructor
  · intro habs
    have hf : db.payors.find? (fun q => sqlEq q.name (some n)) = none := by
      rw [List.find?_eq_none]
      intro p hp
      cases hname : p.name with
      | none => simp [sqlEq, hname]
      | some m =>
        have hne : m ≠ n := fun he => (habs p hp) (by rw [hname, he])
        simp [sqlEq, hname, hne]
    simp [get_or_create_payor, hf]
  · intro hex
    have hs : (db.payors.find? (fun q => sqlEq q.name (some n))).isSome := by
      rw [List.find?_isSome]
      rcases hex with ⟨p, hp, hname⟩
      exact ⟨p, hp, by simp [sqlEq, hname]⟩
    rcases Option.isSome_iff_exists.mp hs with ⟨q, hq⟩
    have hqm := List.mem_of_find?_eq_some hq
    have hqp := List.find?_some hq
    have hqname : q.name = some n := by
      cases hname : q.name with
      | none => rw [hname] at hqp; simp [sqlEq] at hqp
      | some m =>
        rw [hname] at hqp
        simp [sqlEq] at hqp
        rw [hqp]
    simp [get_or_create_payor, hq, hqm, hqname]

/-- Witness for C2: a miss on an empty payors table, then a hit on a
table already holding the payor. -/
theorem get_or_create_payor_spec_witness :
    ((((get_or_create_payor exampleDB (some "Acme Health")).1.payor_id =
        exampleDB.nextPayorId ∧
       (get_or_create_payor exampleDB (some "Acme Health")).1.name =
        some "Acme Health") ∧
      (get_or_create_payor exampleDB (some "Acme Health")).2.payors =
        exampleDB.payors ++
          [(get_or_create_payor exampleDB (some "Acme Health")).1] ∧
      (get_or_create_payor exampleDB (some "Acme Health")).2.providers =
        exampleDB.providers ∧
      (get_or_create_payor exampleDB (some "Acme Health")).2.documents =
        exampleDB.documents ∧
      (get_or_create_payor exampleDB (some "Acme Health")).2.contracts =
        exampleDB.contracts ∧
      (get_or_create_payor exampleDB (some "Acme Health")).2.contract_terms =
        exampleDB.contract_terms))
    ∧ ((get_or_create_payor payorPresentDB (some "Acme Health")).2 =
        payorPresentDB ∧
      (get_or_create_payor payorPresentDB (some "Acme Health")).1 ∈
        payorPresentDB.payors ∧
      (get_or_create_payor payorPresentDB (some "Acme Health")).1.name =
        some "Acme Health") :=
  ⟨(get_or_create_payor_spec exampleDB "Acme Health").1 (by decide),
   (get_or_create_payor_spec payorPresentDB "Acme Health").2
     ⟨⟨7, some "Acme Health"⟩, by decide, rfl⟩⟩

theorem stageTerms_spec (cid : Nat) (terms : PyDict) (nid clk : Nat) :
    ((stageTerms cid terms nid clk).1.map
        (fun t => (t.term_name, t.term_value)) =
      terms.filterMap (fun kv => kv.2.map (fun v => (kv.1, v))))
    ∧ (∀ t ∈ (stageTerms cid terms nid clk).1, t.contract_id = cid) := by
  induction terms generalizing nid clk with
  | nil => simp [stageTerms]
  | cons kv rest ih =>
    obtain ⟨k, v⟩ := kv
    cases v with
    | none => simpa [stageTerms] using ih nid clk
    | some s =>
      constructor
      · simp [stageTerms, List.filterMap_cons, (ih (nid + 1) (clk + 1)).1]
      · intro t ht
        simp only [stageTerms, List.mem_cons] at ht
        rcases ht with h | h
        · rw [h]
        · exact (ih (nid + 1) (clk + 1)).2 t h

/-- C6: for every contract id and extra-terms mapping,
`add_contract_terms` creates exactly one term row per (name, value) pair
with a non-absent value — in order, with name and value verbatim — and
no row at all for a pair whose value is the absent marker; the staged
rows are committed as a single batch append after the loop, all carrying
the given contract id, and no other table is touched. -/
theorem add_contract_terms_spec (db : DBState) (cid : Nat) (terms : PyDict) :
    ∃ rows : List ContractTerm,
      (add_contract_terms db cid terms).contract_terms =
        db.contract_terms ++ rows ∧
      rows.map (fun t => (t.term_name, t.term_value)) =
        terms.filterMap (fun kv => kv.2.map (fun v => (kv.1, v))) ∧
      (∀ t ∈ rows, t.contract_id = cid) ∧
      (add_contract_terms db cid terms).payors = db.payors ∧
      (add_contract_terms db cid terms).providers = db.providers ∧
      (add_contract_terms db cid terms).documents = db.documents ∧
      (add_contract_terms db cid terms).contracts = db.contracts := by
  refine ⟨(stageTerms cid terms db.nextTermId db.clock).1, rfl, ?_, ?_,
    rfl, rfl, rfl, rfl⟩
  · exact (stageTerms_spec cid terms db.nextTermId db.clock).1
  · exact (stageTerms_spec cid terms db.nextTermId db.clock).2

/-- C1, evaluated at the spec's own end-to-end input: the splitter's
membership test (`key not in contract_essential_terms`) compares against
the internal snake_case keys, so the four essential CSV keys are *not*
excluded from the extra-terms set — they flow through as extra terms
alongside `Deductible`, contradicting the claimed
input-keys-minus-five set difference. -/
theorem contract_terms_of_keeps_essential_keys :
    (contract_terms_of (load_contract_data exampleRows)).map Prod.fst =
      ["Effective Date", "Payor Name", "Termination Notice Period",
       "Stop Loss Threshold", "Deductible"] := by decide

/-- The ten ASCII digit characters (membership in this list is the
spec-side reading of "digit" for well-formed currency strings). -/
def digitChars : List Char :=
  ['0', '1', '2', '3', '4', '5', '6', '7', '8', '9']

theorem digitChars_isDigit : ∀ c ∈ digitChars, Char.isDigit c = true := by
  decide

theorem numeralChar_facts : ∀ c ∈ '.' :: digitChars,
    isPySpace c = false ∧ c ≠ '_' ∧ c ≠ '-' ∧ c ≠ '+' ∧
    c.toLower ≠ 'i' ∧ c.toLower ≠ 'n' := by decide

theorem underscoresOkAux_no_underscore (prev : Char) (cs : List Char)
    (h : ∀ c ∈ cs, c ≠ '_') : underscoresOkAux prev cs = true := by
  induction cs generalizing prev with
  | nil => rfl
  | cons c rest ih =>
    have hstep : underscoresOkAux prev (c :: rest) = underscoresOkAux c rest := by
      rw [underscoresOkAux.eq_def]
      simp [h c (List.mem_cons_self c rest)]
    rw [hstep]
    exact ih c (fun c2 hc => h c2 (List.mem_cons_of_mem _ hc))

theorem underscoresOk_no_underscore (cs : List Char)
    (h : ∀ c ∈ cs, c ≠ '_') : underscoresOk cs = true := by
  cases cs with
  | nil => rfl
  | cons c rest =>
    rw [underscoresOk]
    have h1 : (c != '_') = true := by
      simpa using h c (List.mem_cons_self c rest)
    rw [h1,
      underscoresOkAux_no_underscore c rest
        (fun c2 hc => h c2 (List.mem_cons_of_mem _ hc))]
    rfl

theorem dropDigits_append (ds rest : List Char)
    (h1 : ∀ c ∈ ds, Char.isDigit c = true)
    (h2 : ∀ c, rest.head? = some c → Char.isDigit c = false) :
    List.dropWhile Char.isDigit (ds ++ rest) = rest := by
  rw [dropWhile_append_all ds rest h1]
  cases rest with
  | nil => rfl
  | cons c cs => simp [List.dropWhile_cons, h2 c rfl]

theorem takeDigits_append (ds rest : List Char)
    (h1 : ∀ c ∈ ds, Char.isDigit c = true)
    (h2 : ∀ c, rest.head? = some c → Char.isDigit c = false) :
    takeDigits (ds ++ rest) = (ds, rest) := by
  rw [takeDigits, takeWhile_append_all ds rest h1 h2,
    dropDigits_append ds rest h1 h2]

/-- The `float()` grammar on a plain string of digits and dots (no
whitespace, sign, keyword or underscore): everything reduces to the
decimal-number part. -/
theorem pyFloatOfString_plain (cs : List Char) (hne : cs ≠ [])
    (hchars : ∀ c ∈ cs, c ∈ '.' :: digitChars) :
    pyFloatOfString (String.mk cs) =
      match parseNumber cs with
      | some mr =>
        if mr.2.dropWhile isPySpace = [] then
          some (PyFloat.finite (mkRat (mr.1.1 : Int) mr.1.2))
        else none
      | none => none := by
  have hund : underscoresOk cs = true :=
    underscoresOk_no_underscore cs
      (fun c hc => (numeralChar_facts c (hchars c hc)).2.1)
  have hfilter : cs.filter (fun c => !(c == '_')) = cs := by
    rw [List.filter_eq_self]
    intro c hc
    simpa using (numeralChar_facts c (hchars c hc)).2.1
  cases cs with
  | nil => exact absurd rfl hne
  | cons c rest =>
    have hcfacts := numeralChar_facts c (hchars c (List.mem_cons_self c rest))
    have hdrop : List.dropWhile isPySpace (c :: rest) = c :: rest := by
      simp [List.dropWhile_cons, hcfacts.1]
    have hsign : parseSign (c :: rest) = (false, c :: rest) := by
      rw [parseSign, if_neg hcfacts.2.2.1, if_neg hcfacts.2.2.2.1]
    have hinf : matchKeyword ['i', 'n', 'f'] (c :: rest) = none := by
      rw [matchKeyword, if_neg hcfacts.2.2.2.2.1]
    have hnan : matchKeyword ['n', 'a', 'n'] (c :: rest) = none := by
      rw [matchKeyword, if_neg hcfacts.2.2.2.2.2]
    rw [pyFloatOfString]
    have hd : (String.mk (c :: rest)).data = c :: rest := rfl
    rw [if_neg (by rw [hd, hund]; exact fun h => Bool.noConfusion h)]
    simp only [hd, hfilter, hdrop, hsign, hinf, hnan]
    cases hp : parseNumber (c :: rest) with
    | none => rfl
    | some mr => rfl

/-- `parseNumber` on `intpart.fracpart` (both all digits, not both
empty). -/
theorem parseNumber_dotted (ip fp : List Char)
    (hip : ∀ c ∈ ip, Char.isDigit c = true)
    (hfp : ∀ c ∈ fp, Char.isDigit c = true)
    (hne : ip ≠ [] ∨ fp ≠ []) :
    parseNumber (ip ++ '.' :: fp) =
      some ((digitsToNat ip * 10 ^ fp.length + digitsToNat fp,
        10 ^ fp.length), []) := by
  have hta : takeDigits (ip ++ '.' :: fp) = (ip, '.' :: fp) :=
    takeDigits_append ip ('.' :: fp) hip
      (fun c hc => by
        injection hc with hc2
        rw [← hc2]
        rfl)
  have htb : takeDigits fp = (fp, []) := by
    have h0 := takeDigits_append fp [] hfp (fun c hc => by cases hc)
    simpa using h0
  have hcond : (decide (ip = []) && decide (fp = [])) = false := by
    rcases hne with h | h <;> simp [h]
  simp only [parseNumber, hta, htb, hcond]
  rw [parseExponent]
  rfl

/-- `parseNumber` on a plain digit string. -/
theorem parseNumber_int (ds : List Char)
    (hds : ∀ c ∈ ds, Char.isDigit c = true) (hne : ds ≠ []) :
    parseNumber ds = some ((digitsToNat ds, 1), []) := by
  have hta : takeDigits ds = (ds, []) := by
    have h0 := takeDigits_append ds [] hds (fun c hc => by cases hc)
    simpa using h0
  have hcond : decide (ds = []) = false := by simp [hne]
  simp only [parseNumber, hta, hcond]
  rw [parseExponent]
  simp [ratOfParts, show digitsToNat [] = 0 from rfl, hne]

/-- C4: `clean_money_value` succeeds exactly when the remainder after
stripping every `$` and `,` is numeric (accepted by the `float()` string
grammar); on failure it raises carrying the original input text; and on
every well-formed currency string — one whose stripped remainder is a
plain decimal numeral, dotted or not — it returns the exact decimal
value. -/
theorem clean_money_value_spec :
    (∀ s : String, (∃ v, clean_money_value s = Except.ok v) ↔
      pyFloatOfString (stripMoney s) ≠ none)
    ∧ (∀ s e, clean_money_value s = Except.error e →
        e = "Invalid money value: " ++ s ∧
        pyFloatOfString (stripMoney s) = none)
    ∧ (∀ (s : String) (ip fp : List Char),
        (∀ c ∈ ip, c ∈ digitChars) → (∀ c ∈ fp, c ∈ digitChars) →
        (ip ≠ [] ∨ fp ≠ []) →
        (stripMoney s).data = ip ++ '.' :: fp →
        clean_money_value s = Except.ok (PyFloat.finite
          (mkRat (Int.ofNat (digitsToNat ip * 10 ^ fp.length + digitsToNat fp))
            (10 ^ fp.length))))
    ∧ (∀ (s : String) (ds : List Char),
        (∀ c ∈ ds, c ∈ digitChars) → ds ≠ [] →
        (stripMoney s).data = ds →
        clean_money_value s = Except.ok (PyFloat.finite
          (mkRat (Int.ofNat (digitsToNat ds)) 1))) := by
  have hmk : ∀ t : String, String.mk t.data = t := fun t => rfl
  refine ⟨?_, ?_, ?_, ?_⟩
  · intro s
    constructor
    · rintro ⟨v, hv⟩ hnone
      rw [clean_money_value, hnone] at hv
      exact Except.noConfusion hv
    · intro hne
      rcases hv : pyFloatOfString (stripMoney s) with _ | v
      · exact absurd hv hne
      · exact ⟨v, by rw [clean_money_value, hv]⟩
  · intro s e he
    rcases hv : pyFloatOfString (stripMoney s) with _ | v
    · rw [clean_money_value, hv] at he
      injection he with he2
      exact ⟨he2.symm, rfl⟩
    · rw [clean_money_value, hv] at he
      exact Except.noConfusion he
  · intro s ip fp hip hfp hne hdata
    have hvalue : pyFloatOfString (stripMoney s) =
        some (PyFloat.finite
          (mkRat (Int.ofNat (digitsToNat ip * 10 ^ fp.length + digitsToNat fp))
            (10 ^ fp.length))) := by
      have hs : stripMoney s = String.mk (ip ++ '.' :: fp) := by
        rw [← hmk (stripMoney s), hdata]
      rw [hs, pyFloatOfString_plain (ip ++ '.' :: fp)
        (by rcases hne with h | h <;> simp [h])
        (by
          intro c hc
          rcases List.mem_append.mp hc with h | h
          · exact List.mem_cons_of_mem _ (hip c h)
          · rcases List.mem_cons.mp h with h2 | h2
            · rw [h2]; exact List.mem_cons_self _ _
            · exact List.mem_cons_of_mem _ (hfp c h2))]
      rw [parseNumber_dotted ip fp
        (fun c hc => digitChars_isDigit c (hip c hc))
        (fun c hc => digitChars_isDigit c (hfp c hc)) hne]
      rfl
    rw [clean_money_value, hvalue]
  · intro s ds hds hne hdata
    have hvalue : pyFloatOfString (stripMoney s) =
        some (PyFloat.finite (mkRat (Int.ofNat (digitsToNat ds)) 1)) := by
      have hs : stripMoney s = String.mk ds := by
        rw [← hmk (stripMoney s), hdata]
      rw [hs, pyFloatOfString_plain ds hne
        (fun c hc => List.mem_cons_of_mem _ (hds c hc))]
      rw [parseNumber_int ds (fun c hc => digitChars_isDigit c (hds c hc)) hne]
      rfl
    rw [clean_money_value, hvalue]

/-- Witness for C4: the spec's example `"$1,250,000.00"` yields exactly
1250000, and `"abc"` raises with the original text embedded. -/
theorem clean_money_value_spec_witness :
    clean_money_value "$1,250,000.00" = Except.ok (PyFloat.finite
      (mkRat (Int.ofNat (digitsToNat ['1', '2', '5', '0', '0', '0', '0'] * 10 ^ 2 +
        digitsToNat ['0', '0'])) (10 ^ 2)))
    ∧ ("Invalid money value: abc" = "Invalid money value: " ++ "abc" ∧
       pyFloatOfString (stripMoney "abc") = none) :=
  ⟨clean_money_value_spec.2.2.1 "$1,250,000.00"
      ['1', '2', '5', '0', '0', '0', '0'] ['0', '0']
      (by decide) (by decide) (Or.inl (by decide)) (by decide),
   clean_money_value_spec.2.1 "abc" "Invalid money value: abc" (by decide)⟩

theorem band_true {a b : Bool} (h : (a && b) = true) :
    a = true ∧ b = true := by
  simp only [Bool.and_eq_true] at h
  exact h

theorem mem_digitChars_of_isDigit (c : Char) (h : Char.isDigit c = true) :
    c ∈ digitChars := by
  rw [Char.isDigit] at h
  rcases band_true h with ⟨h1, h2⟩
  have h1n : 48 ≤ c.toNat :=
    UInt32.le_toNat_of_le (by decide) (of_decide_eq_true h1)
  have h2n : c.toNat ≤ 57 :=
    UInt32.toNat_le_of_le (by decide) (of_decide_eq_true h2)
  have hc : c = Char.ofNat c.toNat := (Char.ofNat_toNat c).symm
  rw [hc]
  set n := c.toNat with hn
  interval_cases n <;> decide

/-- The day field as the `%d` regex accepts it: one nonzero digit, or
two digits with value 1..31. -/
def DayChars (cs : List Char) (d : Nat) : Prop :=
  (∃ c, cs = [c] ∧ c ∈ digitChars ∧ d = digitVal c ∧ 1 ≤ d) ∨
  (∃ c0 c1, cs = [c0, c1] ∧ c0 ∈ digitChars ∧ c1 ∈ digitChars ∧
    d = digitVal c0 * 10 + digitVal c1 ∧ 1 ≤ d ∧ d ≤ 31)

/-- The month field as `%b` accepts it: three characters that lowercase
to the abbreviation of month `m`. -/
def MonthChars (cs : List Char) (m : Nat) : Prop :=
  ∃ c0 c1 c2, cs = [c0, c1, c2] ∧ 1 ≤ m ∧ m ≤ 12 ∧
    [c0.toLower, c1.toLower, c2.toLower] = (monthAbbrevs.getD (m - 1) "").data

/-- The year field as `%y` accepts it: exactly two digits. -/
def YearChars (cs : List Char) (yy : Nat) : Prop :=
  ∃ c0 c1, cs = [c0, c1] ∧ c0 ∈ digitChars ∧ c1 ∈ digitChars ∧
    yy = digitVal c0 * 10 + digitVal c1

/-- A string in the `DD-Mon-YY` shape of the format `'%d-%b-%y'`,
denoting day `d`, month `m` and two-digit year `yy`. -/
def DateFormat (s : String) (d m yy : Nat) : Prop :=
  ∃ dc mc yc, s.data = dc ++ '-' :: (mc ++ '-' :: yc) ∧
    DayChars dc d ∧ MonthChars mc m ∧ YearChars yc yy

theorem parseDay_two (c0 c1 : Char) (rest : List Char)
    (h0 : Char.isDigit c0 = true) (h1 : Char.isDigit c1 = true)
    (hlo : 1 ≤ digitVal c0 * 10 + digitVal c1)
    (hhi : digitVal c0 * 10 + digitVal c1 ≤ 31) :
    parseDay (c0 :: c1 :: rest) =
      some (digitVal c0 * 10 + digitVal c1, rest) := by
  rw [parseDay]
  simp [h0, h1, hlo, hhi]

theorem parseDay_one (c : Char) (t : List Char) (hc : Char.isDigit c = true)
    (h1 : 1 ≤ digitVal c) :
    parseDay (c :: '-' :: t) = some (digitVal c, '-' :: t) := by
  rw [parseDay]
  have hdash : Char.isDigit '-' = false := by decide
  simp [hc, hdash, h1]

theorem parseDay_inv (cs : List Char) (d : Nat) (rest : List Char)
    (h : parseDay cs = some (d, rest)) :
    (∃ c0 c1, cs = c0 :: c1 :: rest ∧ Char.isDigit c0 = true ∧
      Char.isDigit c1 = true ∧ d = digitVal c0 * 10 + digitVal c1 ∧
      1 ≤ d ∧ d ≤ 31) ∨
    (∃ c0, cs = c0 :: rest ∧ Char.isDigit c0 = true ∧ d = digitVal c0 ∧
      1 ≤ d) := by
  cases cs with
  | nil => exact Option.noConfusion h
  | cons c0 tail =>
    cases tail with
    | nil =>
      rw [parseDay] at h
      by_cases hc : (c0.isDigit && decide (1 ≤ digitVal c0)) = true
      · rw [if_pos hc] at h
        rcases band_true hc with ⟨hd, hv⟩
        injection h with h2
        injection h2 with h3 h4
        right
        exact ⟨c0, by rw [← h4], hd, h3.symm, h3 ▸ of_decide_eq_true hv⟩
      · rw [if_neg hc] at h
        exact Option.noConfusion h
    | cons c1 tail2 =>
      rw [parseDay] at h
      by_cases hc : (c0.isDigit && c1.isDigit &&
          decide (1 ≤ digitVal c0 * 10 + digitVal c1) &&
          decide (digitVal c0 * 10 + digitVal c1 ≤ 31)) = true
      · rw [if_pos hc] at h
        injection h with h2
        injection h2 with h3 h4
        rcases band_true hc with ⟨hc2, hv31⟩
        rcases band_true hc2 with ⟨hc3, hv1⟩
        rcases band_true hc3 with ⟨hd0, hd1⟩
        left
        exact ⟨c0, c1, by rw [h4], hd0, hd1, h3.symm,
          h3 ▸ of_decide_eq_true hv1, h3 ▸ of_decide_eq_true hv31⟩
      · rw [if_neg hc] at h
        by_cases hc2 : (c0.isDigit && decide (1 ≤ digitVal c0)) = true
        · rw [if_pos hc2] at h
          rcases band_true hc2 with ⟨hd, hv⟩
          injection h with h2
          injection h2 with h3 h4
          right
          exact ⟨c0, by rw [h4], hd, h3.symm, h3 ▸ of_decide_eq_true hv⟩
        · rw [if_neg hc2] at h
          exact Option.noConfusion h

theorem expectDash_inv (cs : List Char) (rest : List Char)
    (h : expectDash cs = some rest) : cs = '-' :: rest := by
  cases cs with
  | nil => exact Option.noConfusion h
  | cons c t =>
    rw [expectDash] at h
    by_cases hc : c = '-'
    · rw [if_pos hc] at h
      injection h with h2
      rw [hc, h2]
    · rw [if_neg hc] at h
      exact Option.noConfusion h

theorem findIdx?_getD (l : List String) (S : String) (i : Nat)
    (h : l.findIdx? (fun a => a == S) = some i) :
    l.getD i "" = S ∧ i < l.length := by
  induction l generalizing i with
  | nil => exact Option.noConfusion h
  | cons x xs ih =>
    rw [List.findIdx?_cons] at h
    by_cases hx : (x == S) = true
    · rw [if_pos hx] at h
      injection h with h2
      rw [← h2]
      exact ⟨eq_of_beq hx, Nat.succ_pos _⟩
    · rw [if_neg hx, List.findIdx?_succ] at h
      rcases Option.map_eq_some'.mp h with ⟨j, hj, hji⟩
      rcases ih j hj with ⟨hget, hlt⟩
      rw [← hji]
      exact ⟨hget, Nat.succ_lt_succ hlt⟩

theorem parseMonth_sound (c0 c1 c2 : Char) (rest : List Char) (m : Nat)
    (hm1 : 1 ≤ m) (hm2 : m ≤ 12)
    (habbr : [c0.toLower, c1.toLower, c2.toLower] =
      (monthAbbrevs.getD (m - 1) "").data) :
    parseMonth (c0 :: c1 :: c2 :: rest) = some (m, rest) := by
  rw [parseMonth]
  have hmk : String.mk [c0.toLower, c1.toLower, c2.toLower] =
      monthAbbrevs.getD (m - 1) "" := by
    rw [habbr]
  rw [hmk]
  have hidx : monthAbbrevs.findIdx?
      (fun a => a == monthAbbrevs.getD (m - 1) "") = some (m - 1) := by
    interval_cases m <;> decide
  rw [hidx]
  show some (m - 1 + 1, rest) = some (m, rest)
  rw [Nat.sub_add_cancel hm1]

theorem parseMonth_inv (cs : List Char) (m : Nat) (rest : List Char)
    (h : parseMonth cs = some (m, rest)) :
    ∃ c0 c1 c2, cs = c0 :: c1 :: c2 :: rest ∧ 1 ≤ m ∧ m ≤ 12 ∧
      [c0.toLower, c1.toLower, c2.toLower] =
        (monthAbbrevs.getD (m - 1) "").data := by
  match cs, h with
  | c0 :: c1 :: c2 :: tail, h =>
    rw [parseMonth] at h
    cases hf : monthAbbrevs.findIdx?
        (fun a => a == String.mk [c0.toLower, c1.toLower, c2.toLower]) with
    | none => rw [hf] at h; exact Option.noConfusion h
    | some i =>
      rw [hf] at h
      injection h with h2
      injection h2 with h3 h4
      rcases findIdx?_getD monthAbbrevs
        (String.mk [c0.toLower, c1.toLower, c2.toLower]) i hf with ⟨hget, hlt⟩
      refine ⟨c0, c1, c2, by rw [h4], by omega, ?_, ?_⟩
      · have : monthAbbrevs.length = 12 := by decide
        omega
      · have hi : m - 1 = i := by omega
        rw [hi, hget]

theorem parseYear2_sound (c0 c1 : Char) (rest : List Char)
    (h0 : Char.isDigit c0 = true) (h1 : Char.isDigit c1 = true) :
    parseYear2 (c0 :: c1 :: rest) =
      some (digitVal c0 * 10 + digitVal c1, rest) := by
  rw [parseYear2]
  simp [h0, h1]

theorem parseYear2_inv (cs : List Char) (yy : Nat) (rest : List Char)
    (h : parseYear2 cs = some (yy, rest)) :
    ∃ c0 c1, cs = c0 :: c1 :: rest ∧ Char.isDigit c0 = true ∧
      Char.isDigit c1 = true ∧ yy = digitVal c0 * 10 + digitVal c1 := by
  match cs, h with
  | c0 :: c1 :: tail, h =>
    rw [parseYear2] at h
    by_cases hc : (c0.isDigit && c1.isDigit) = true
    · rw [if_pos hc] at h
      rcases band_true hc with ⟨hd0, hd1⟩
      injection h with h2
      injection h2 with h3 h4
      exact ⟨c0, c1, by rw [h4], hd0, hd1, h3.symm⟩
    · rw [if_neg hc] at h
      exact Option.noConfusion h

/-- C3: `clean_effective_date` maps every string in the `DD-Mon-YY`
format (as `strptime('%d-%b-%y')` reads it: 1-2 digit day, 3-letter
case-insensitive month abbreviation, 2-digit pivoted year) that denotes
a real calendar date to exactly that date; and every successful parse
arises this way — so any string not matching the format (or naming a
non-existent day) fails with the parse error. -/
theorem clean_effective_date_spec :
    (∀ (s : String) (d m yy : Nat), DateFormat s d m yy →
      d ≤ daysInMonth (pivotYear yy) m →
      clean_effective_date s = some ⟨pivotYear yy, m, d⟩)
    ∧ (∀ (s : String) (dt : PyDate), clean_effective_date s = some dt →
      ∃ d m yy, DateFormat s d m yy ∧ dt = ⟨pivotYear yy, m, d⟩ ∧
        d ≤ daysInMonth (pivotYear yy) m) := by
  constructor
  · rintro s d m yy ⟨dc, mc, yc, hdata, hdc, hmc, hyc⟩ hday
    obtain ⟨m0, m1, m2, hmceq, hm1, hm2, habbr⟩ := hmc
    obtain ⟨y0, y1, hyceq, hy0, hy1, hyy⟩ := hyc
    rw [clean_effective_date, hdata, hmceq, hyceq]
    rcases hdc with ⟨c, hdceq, hcmem, hd, hd1⟩ |
      ⟨c0, c1, hdceq, h0mem, h1mem, hd, hd1, hd31⟩
    · rw [hdceq]
      simp only [List.cons_append, List.nil_append]
      rw [parseDay_one c (m0 :: m1 :: m2 :: '-' :: y0 :: y1 :: [])
        (digitChars_isDigit c hcmem) (hd ▸ hd1)]
      simp only [expectDash, eq_self_iff_true, if_true,
        parseMonth_sound m0 m1 m2 ('-' :: y0 :: y1 :: []) m hm1 hm2 habbr,
        parseYear2_sound y0 y1 [] (digitChars_isDigit y0 hy0)
          (digitChars_isDigit y1 hy1)]
      rw [← hyy, ← hd]
      simp [hday]
    · rw [hdceq]
      simp only [List.cons_append, List.nil_append]
      rw [parseDay_two c0 c1 ('-' :: m0 :: m1 :: m2 :: '-' :: y0 :: y1 :: [])
        (digitChars_isDigit c0 h0mem) (digitChars_isDigit c1 h1mem)
        (hd ▸ hd1) (hd ▸ hd31)]
      simp only [expectDash, eq_self_iff_true, if_true,
        parseMonth_sound m0 m1 m2 ('-' :: y0 :: y1 :: []) m hm1 hm2 habbr,
        parseYear2_sound y0 y1 [] (digitChars_isDigit y0 hy0)
          (digitChars_isDigit y1 hy1)]
      rw [← hyy, ← hd]
      simp [hday]
  · intro s dt h
    rw [clean_effective_date] at h
    split at h
    · exact Option.noConfusion h
    rename_i dr hpd
    split at h
    · exact Option.noConfusion h
    rename_i rest2 hed
    split at h
    · exact Option.noConfusion h
    rename_i mr hpm
    split at h
    · exact Option.noConfusion h
    rename_i rest4 hed2
    split at h
    · exact Option.noConfusion h
    rename_i yr hpy
    split at h
    · rename_i hnil
      split at h
      · rename_i hday
        injection h with h2
        have hdash1 := expectDash_inv dr.2 rest2 hed
        have hdash2 := expectDash_inv mr.2 rest4 hed2
        obtain ⟨m0, m1, m2, hrest2, hm1, hm2, habbr⟩ :=
          parseMonth_inv rest2 mr.1 mr.2 hpm
        obtain ⟨y0, y1, hrest4, hy0, hy1, hyy⟩ :=
          parseYear2_inv rest4 yr.1 yr.2 hpy
        refine ⟨dr.1, mr.1, yr.1, ?_, h2.symm, hday⟩
        rcases parseDay_inv s.data dr.1 dr.2 hpd with
          ⟨c0, c1, hcs, hd0, hd1, hdval, hlo, hhi⟩ |
          ⟨c0, hcs, hd0, hdval, hlo⟩
        · refine ⟨[c0, c1], [m0, m1, m2], [y0, y1], ?_,
            Or.inr ⟨c0, c1, rfl, mem_digitChars_of_isDigit c0 hd0,
              mem_digitChars_of_isDigit c1 hd1, hdval, hlo, hhi⟩,
            ⟨m0, m1, m2, rfl, hm1, hm2, habbr⟩,
            ⟨y0, y1, rfl, mem_digitChars_of_isDigit y0 hy0,
              mem_digitChars_of_isDigit y1 hy1, hyy⟩⟩
          rw [hcs, hdash1, hrest2, hdash2, hrest4, hnil]
          rfl
        · refine ⟨[c0], [m0, m1, m2], [y0, y1], ?_,
            Or.inl ⟨c0, rfl, mem_digitChars_of_isDigit c0 hd0,
              hdval, hlo⟩,
            ⟨m0, m1, m2, rfl, hm1, hm2, habbr⟩,
            ⟨y0, y1, rfl, mem_digitChars_of_isDigit y0 hy0,
              mem_digitChars_of_isDigit y1 hy1, hyy⟩⟩
          rw [hcs, hdash1, hrest2, hdash2, hrest4, hnil]
          rfl
      · exact Option.noConfusion h
    · exact Option.noConfusion h

/-- Witness for C3: `"01-Jan-24"` parses to 2024-01-01. -/
theorem clean_effective_date_spec_witness :
    clean_effective_date "01-Jan-24" = some ⟨2024, 1, 1⟩ := by
  have h := clean_effective_date_spec.1 "01-Jan-24" 1 1 24
    ⟨['0', '1'], ['J', 'a', 'n'], ['2', '4'], by decide,
      Or.inr ⟨'0', '1', rfl, by decide, by decide, by decide, by decide,
        by decide⟩,
      ⟨'J', 'a', 'n', rfl, by decide, by decide, by decide⟩,
      ⟨'2', '4', rfl, by decide, by decide, by decide⟩⟩ (by decide)
  exact h

theorem get_or_create_payor_mem (db : DBState) (n : Option String) :
    (get_or_create_payor db n).1 ∈ (get_or_create_payor db n).2.payors := by
  rw [get_or_create_payor]
  cases hf : db.payors.find? (fun p => sqlEq p.name n) with
  | some p => simpa using List.mem_of_find?_eq_some hf
  | none => simp

theorem get_or_create_payor_payors_extend (db : DBState) (n : Option String) :
    ∃ new, (get_or_create_payor db n).2.payors = db.payors ++ new := by
  rw [get_or_create_payor]
  cases hf : db.payors.find? (fun p => sqlEq p.name n) with
  | some p => exact ⟨[], by simp⟩
  | none => exact ⟨[⟨db.nextPayorId, n⟩], rfl⟩

theorem get_or_create_payor_frame (db : DBState) (n : Option String) :
    (get_or_create_payor db n).2.providers = db.providers ∧
    (get_or_create_payor db n).2.documents = db.documents ∧
    (get_or_create_payor db n).2.contracts = db.contracts ∧
    (get_or_create_payor db n).2.contract_terms = db.contract_terms := by
  rw [get_or_create_payor]
  cases hf : db.payors.find? (fun p => sqlEq p.name n) with
  | some p => exact ⟨rfl, rfl, rfl, rfl⟩
  | none => exact ⟨rfl, rfl, rfl, rfl⟩

theorem add_document_mem (db : DBState) (fp : Option String) :
    (add_document db fp).1 ∈ (add_document db fp).2.documents := by
  simp [add_document]

theorem add_document_frame (db : DBState) (fp : Option String) :
    (add_document db fp).2.providers = db.providers ∧
    (add_document db fp).2.payors = db.payors ∧
    (add_document db fp).2.contracts = db.contracts ∧
    (add_document db fp).2.contract_terms = db.contract_terms :=
  ⟨rfl, rfl, rfl, rfl⟩

/-- C7: in every successful run the operations execute in the fixed
linear order — load, clean/split, provider lookup, payor
resolve-or-create, document insert, contract insert, contract-terms
batch insert — and the payor, provider, and document all carry assigned
identities (are rows of the store) before the contract referencing them
by id is created, and the contract row exists before any of its term
rows is created (every new term row references the already-inserted
contract's id). -/
theorem process_contract_data_order (rows : List (String × Cell))
    (db0 : DBState) (h : (process_contract_data rows db0).isOk = true) :
    ∃ (eff : PyDate) (tp : Option Nat) (slt : PyFloat)
      (prov : HealthcareProvider) (payor : Payor) (db1 : DBState)
      (doc : Document) (db2 : DBState) (c : Contract) (db3 : DBState),
      cleanDateField (dictGet (load_contract_data rows) "Effective Date") =
        Except.ok eff ∧
      cleanTermField
        (dictGet (load_contract_data rows) "Termination Notice Period") =
        Except.ok tp ∧
      cleanMoneyField
        (dictGet (load_contract_data rows) "Stop Loss Threshold") =
        Except.ok slt ∧
      get_healthcare_provider db0 (some "ABC Healthcare") = some prov ∧
      prov ∈ db0.providers ∧
      get_or_create_payor db0
        (dictGet (load_contract_data rows) "Payor Name") = (payor, db1) ∧
      payor ∈ db1.payors ∧
      add_document db1 (dictGet (load_contract_data rows) "PDF_filename") =
        (doc, db2) ∧
      doc ∈ db2.documents ∧ payor ∈ db2.payors ∧ prov ∈ db2.providers ∧
      add_contract db2
        ⟨eff, dictGet (load_contract_data rows) "Payor Name", tp, slt⟩
        payor.payor_id prov.provider_id doc.document_id = (c, db3) ∧
      c.payor_id = payor.payor_id ∧ c.provider_id = prov.provider_id ∧
      c.document_id = doc.document_id ∧ c ∈ db3.contracts ∧
      process_contract_data rows db0 = Except.ok
        (add_contract_terms db3 c.contract_id
          (contract_terms_of (load_contract_data rows))) ∧
      (∀ t ∈ (add_contract_terms db3 c.contract_id
          (contract_terms_of (load_contract_data rows))).contract_terms,
        t ∈ db3.contract_terms ∨
          (t.contract_id = c.contract_id ∧ c ∈ db3.contracts)) := by
  simp only [process_contract_data] at h
  split at h
  · exact Bool.noConfusion h
  rename_i eff hdate
  split at h
  · exact Bool.noConfusion h
  rename_i tp hterm
  split at h
  · exact Bool.noConfusion h
  rename_i slt hmoney
  split at h
  · exact Bool.noConfusion h
  rename_i prov hprov
  obtain ⟨payor, db1, hpr⟩ : ∃ p d, get_or_create_payor db0
      (dictGet (load_contract_data rows) "Payor Name") = (p, d) :=
    ⟨_, _, rfl⟩
  obtain ⟨doc, db2, hdoc⟩ : ∃ dd d, add_document db1
      (dictGet (load_contract_data rows) "PDF_filename") = (dd, d) :=
    ⟨_, _, rfl⟩
  obtain ⟨c, db3, hc⟩ : ∃ cc d, add_contract db2
      ⟨eff, dictGet (load_contract_data rows) "Payor Name", tp, slt⟩
      payor.payor_id prov.provider_id doc.document_id = (cc, d) :=
    ⟨_, _, rfl⟩
  have hpr1 : (get_or_create_payor db0
      (dictGet (load_contract_data rows) "Payor Name")).1 = payor :=
    congrArg Prod.fst hpr
  have hpr2 : (get_or_create_payor db0
      (dictGet (load_contract_data rows) "Payor Name")).2 = db1 :=
    congrArg Prod.snd hpr
  have hdoc1 : (add_document db1
      (dictGet (load_contract_data rows) "PDF_filename")).1 = doc :=
    congrArg Prod.fst hdoc
  have hdoc2 : (add_document db1
      (dictGet (load_contract_data rows) "PDF_filename")).2 = db2 :=
    congrArg Prod.snd hdoc
  have hc1 : (add_contract db2
      ⟨eff, dictGet (load_contract_data rows) "Payor Name", tp, slt⟩
      payor.payor_id prov.provider_id doc.document_id).1 = c :=
    congrArg Prod.fst hc
  have hc2 : (add_contract db2
      ⟨eff, dictGet (load_contract_data rows) "Payor Name", tp, slt⟩
      payor.payor_id prov.provider_id doc.document_id).2 = db3 :=
    congrArg Prod.snd hc
  refine ⟨eff, tp, slt, prov, payor, db1, doc, db2, c, db3,
    hdate, hterm, hmoney, hprov, List.mem_of_find?_eq_some hprov,
    hpr, ?_, hdoc, ?_, ?_, ?_, hc, ?_, ?_, ?_, ?_, ?_, ?_⟩
  · have hm := get_or_create_payor_mem db0
      (dictGet (load_contract_data rows) "Payor Name")
    rw [hpr1, hpr2] at hm
    exact hm
  · have hm := add_document_mem db1
      (dictGet (load_contract_data rows) "PDF_filename")
    rw [hdoc1, hdoc2] at hm
    exact hm
  · have hm := get_or_create_payor_mem db0
      (dictGet (load_contract_data rows) "Payor Name")
    rw [hpr1, hpr2] at hm
    rw [← hdoc2]
    exact hm
  · rw [← hdoc2,
      (add_document_frame db1
        (dictGet (load_contract_data rows) "PDF_filename")).1,
      ← hpr2,
      (get_or_create_payor_frame db0
        (dictGet (load_contract_data rows) "Payor Name")).1]
    exact List.mem_of_find?_eq_some hprov
  · rw [← hc1]
    rfl
  · rw [← hc1]
    rfl
  · rw [← hc1]
    rfl
  · rw [← hc2, ← hc1]
    simp [add_contract]
  · simp only [process_contract_data, hdate, hterm, hmoney, hprov, hpr,
      hdoc, hc]
  · intro t ht
    rw [add_contract_terms] at ht
    rcases List.mem_append.mp ht with hl | hr
    · exact Or.inl hl
    · refine Or.inr ⟨(stageTerms_spec _ _ _ _).2 t hr, ?_⟩
      rw [← hc2, ← hc1]
      simp [add_contract]

/-- Witness for C7: the spec's end-to-end scenario runs to success on a
store holding the provider. -/
theorem process_contract_data_order_witness :
    ∃ (eff : PyDate) (tp : Option Nat) (slt : PyFloat)
      (prov : HealthcareProvider) (payor : Payor) (db1 : DBState)
      (doc : Document) (db2 : DBState) (c : Contract) (db3 : DBState),
      cleanDateField
        (dictGet (load_contract_data exampleRows) "Effective Date") =
        Except.ok eff ∧
      cleanTermField
        (dictGet (load_contract_data exampleRows)
          "Termination Notice Period") = Except.ok tp ∧
      cleanMoneyField
        (dictGet (load_contract_data exampleRows) "Stop Loss Threshold") =
        Except.ok slt ∧
      get_healthcare_provider exampleDB (some "ABC Healthcare") =
        some prov ∧
      prov ∈ exampleDB.providers ∧
      get_or_create_payor exampleDB
        (dictGet (load_contract_data exampleRows) "Payor Name") =
        (payor, db1) ∧
      payor ∈ db1.payors ∧
      add_document db1
        (dictGet (load_contract_data exampleRows) "PDF_filename") =
        (doc, db2) ∧
      doc ∈ db2.documents ∧ payor ∈ db2.payors ∧ prov ∈ db2.providers ∧
      add_contract db2
        ⟨eff, dictGet (load_contract_data exampleRows) "Payor Name", tp, slt⟩
        payor.payor_id prov.provider_id doc.document_id = (c, db3) ∧
      c.payor_id = payor.payor_id ∧ c.provider_id = prov.provider_id ∧
      c.document_id = doc.document_id ∧ c ∈ db3.contracts ∧
      process_contract_data exampleRows exampleDB = Except.ok
        (add_contract_terms db3 c.contract_id
          (contract_terms_of (load_contract_data exampleRows))) ∧
      (∀ t ∈ (add_contract_terms db3 c.contract_id
          (contract_terms_of (load_contract_data exampleRows))).contract_terms,
        t ∈ db3.contract_terms ∨
          (t.contract_id = c.contract_id ∧ c ∈ db3.contracts)) :=
  process_contract_data_order exampleRows exampleDB (by decide)

/-- C8: if any step raises, the run aborts with that single error — no
retry, no cleanup — and the store state at the raise only extends the
initial one (earlier committed inserts persist, nothing is removed or
changed); when the raise is the provider dereference, the payor commit
and the document commit of the two earlier steps are both still
present. -/
theorem process_contract_data_abort (rows : List (String × Cell))
    (db0 : DBState) (e : PipelineError) (db : DBState)
    (h : process_contract_data rows db0 = Except.error (e, db)) :
    (∃ newPayors, db.payors = db0.payors ++ newPayors) ∧
    (∃ newDocs, db.documents = db0.documents ++ newDocs) ∧
    db.providers = db0.providers ∧
    db.contracts = db0.contracts ∧
    db.contract_terms = db0.contract_terms ∧
    (e = PipelineError.attributeErr →
      get_healthcare_provider db0 (some "ABC Healthcare") = none ∧
      db = (add_document
        (get_or_create_payor db0
          (dictGet (load_contract_data rows) "Payor Name")).2
        (dictGet (load_contract_data rows) "PDF_filename")).2 ∧
      (get_or_create_payor db0
        (dictGet (load_contract_data rows) "Payor Name")).1 ∈ db.payors ∧
      (add_document
        (get_or_create_payor db0
          (dictGet (load_contract_data rows) "Payor Name")).2
        (dictGet (load_contract_data rows) "PDF_filename")).1 ∈
        db.documents) := by
  simp only [process_contract_data] at h
  split at h
  · rename_i e2 herr
    injection h with h2
    injection h2 with h3 h4
    subst h4
    refine ⟨⟨[], by simp⟩, ⟨[], by simp⟩, rfl, rfl, rfl, ?_⟩
    intro hattr
    rw [h3, hattr] at herr
    exact absurd herr (by
      rw [cleanDateField.eq_def]
      split
      · exact fun hx => by injection hx with hx2; exact PipelineError.noConfusion hx2
      · split
        · exact fun hx => Except.noConfusion hx
        · exact fun hx => by injection hx with hx2; exact PipelineError.noConfusion hx2)
  rename_i eff hdate
  split at h
  · rename_i e2 herr
    injection h with h2
    injection h2 with h3 h4
    subst h4
    refine ⟨⟨[], by simp⟩, ⟨[], by simp⟩, rfl, rfl, rfl, ?_⟩
    intro hattr
    rw [h3, hattr] at herr
    exact absurd herr (by
      rw [cleanTermField.eq_def]
      split
      · exact fun hx => by injection hx with hx2; exact PipelineError.noConfusion hx2
      · exact fun hx => Except.noConfusion hx)
  rename_i tp hterm
  split at h
  · rename_i e2 herr
    injection h with h2
    injection h2 with h3 h4
    subst h4
    refine ⟨⟨[], by simp⟩, ⟨[], by simp⟩, rfl, rfl, rfl, ?_⟩
    intro hattr
    rw [h3, hattr] at herr
    exact absurd herr (by
      rw [cleanMoneyField.eq_def]
      split
      · exact fun hx => by injection hx with hx2; exact PipelineError.noConfusion hx2
      · split
        · exact fun hx => Except.noConfusion hx
        · exact fun hx => by injection hx with hx2; exact PipelineError.noConfusion hx2)
  rename_i slt hmoney
  split at h
  · rename_i hprov
    injection h with h2
    injection h2 with h3 h4
    subst h4
    rcases get_or_create_payor_payors_extend db0
      (dictGet (load_contract_data rows) "Payor Name") with ⟨newP, hnewP⟩
    have hframe := get_or_create_payor_frame db0
      (dictGet (load_contract_data rows) "Payor Name")
    refine ⟨⟨newP, by rw [← hnewP]; rfl⟩,
      ⟨[(add_document
          (get_or_create_payor db0
            (dictGet (load_contract_data rows) "Payor Name")).2
          (dictGet (load_contract_data rows) "PDF_filename")).1],
        by rw [← hframe.2.1]; rfl⟩,
      hframe.1, hframe.2.2.1, hframe.2.2.2, ?_⟩
    intro _
    exact ⟨hprov, rfl, get_or_create_payor_mem db0 _, add_document_mem _ _⟩
  rename_i prov hprov
  exact Except.noConfusion h

/-- The store state the aborted provider-missing run leaves behind for
the section-8 input against an empty store. -/
def exampleAbortDB : DBState :=
  { providers := [], payors := [⟨1, some "Acme Health"⟩],
    documents := [⟨1, some "doc.pdf"⟩], contracts := [],
    contract_terms := [],
    nextPayorId := 2, nextDocumentId := 2, nextContractId := 1,
    nextTermId := 1, clock := 0 }

/-- Witness for C8: running the section-8 input against a store with no
provider aborts at the provider dereference, with the payor and
document inserts already committed and persisted. -/
theorem process_contract_data_abort_witness :
    (∃ newPayors, exampleAbortDB.payors = emptyDB.payors ++ newPayors) ∧
    (∃ newDocs, exampleAbortDB.documents = emptyDB.documents ++ newDocs) ∧
    exampleAbortDB.providers = emptyDB.providers ∧
    exampleAbortDB.contracts = emptyDB.contracts ∧
    exampleAbortDB.contract_terms = emptyDB.contract_terms ∧
    (PipelineError.attributeErr = PipelineError.attributeErr →
      get_healthcare_provider emptyDB (some "ABC Healthcare") = none ∧
      exampleAbortDB = (add_document
        (get_or_create_payor emptyDB
          (dictGet (load_contract_data exampleRows) "Payor Name")).2
        (dictGet (load_contract_data exampleRows) "PDF_filename")).2 ∧
      (get_or_create_payor emptyDB
        (dictGet (load_contract_data exampleRows) "Payor Name")).1 ∈
        exampleAbortDB.payors ∧
      (add_document
        (get_or_create_payor emptyDB
          (dictGet (load_contract_data exampleRows) "Payor Name")).2
        (dictGet (load_contract_data exampleRows) "PDF_filename")).1 ∈
        exampleAbortDB.documents) :=
  process_contract_data_abort exampleRows emptyDB
    PipelineError.attributeErr exampleAbortDB (by decide)

end KuberaDB
